import Mathlib

/-!
A verification development for TimeTableLib (`timetable.js`), a library that
renders a weekly schedule of timed events into a grid of fixed-duration time
slots.  The repository ships two concatenated versions of the `Timetable`
class; where the two versions differ the definitions below carry a `V1` / `V2`
suffix (version 1: fixed 08:00–18:00 window, raw-ceiling row span, cached
`slotIndex`; version 2: data-driven window, `max(minRowSpan, ceiling)` row
span, start-minute window filtering).  Shared logic (time parsing, field
defaulting, day resolution, the row/occupancy loop) is defined once.

Machine arithmetic notes: JavaScript numbers are modelled with `Nat`/`Int`
(all quantities involved are small integers; no overflow is reachable).
`Math.floor` of a possibly negative quotient is `Int.fdiv`; array lookups
that can be `undefined` are `Option`.
-/

namespace Timetable

/-- One row descriptor of the grid (source: objects pushed by
`generateTimeSlots`): a HH:MM label, the offset from midnight in minutes and
the two presentation flags. -/
structure TimeSlot where
  label : String
  minutes : Nat
  isHour : Bool
  isHalfHour : Bool
deriving DecidableEq

instance : Inhabited TimeSlot := ⟨⟨"", 0, false, false⟩⟩

/-- JavaScript `n.toString().padStart(2, "0")` for the natural numbers that
occur as hour/minute components. -/
def padTwo (n : Nat) : String :=
  if n < 10 then "0" ++ toString n else toString n

/-- The slot object built inside the generation loop of `generateTimeSlots`
(both versions): label, minutes, and the `minute === 0` / `minute === 30`
flags. -/
def mkSlot (time : Nat) : TimeSlot :=
  { label := padTwo (time / 60) ++ ":" ++ padTwo (time % 60)
    minutes := time
    isHour := time % 60 == 0
    isHalfHour := time % 60 == 30 }

/-- The slot-generation loop
`for (let time = start; time < end; time += interval) slots.push(...)`,
written with an explicit fuel so that it is structurally recursive (and hence
evaluates inside the kernel); `slotsFrom` supplies the exact fuel
`endT - time`, which the loop consumes one unit per iteration because each
iteration advances `time` by at least one.  The `0 < interval` conjunct in
the guard is the termination condition of the JavaScript loop (the library
requires a positive `timeInterval`, §6 of the spec). -/
def slotsFromAux : Nat → Nat → Nat → Nat → List TimeSlot
  | 0, _, _, _ => []
  | fuel + 1, time, endT, interval =>
    if time < endT ∧ 0 < interval then
      mkSlot time :: slotsFromAux fuel (time + interval) endT interval
    else []

/-- The slot-generation loop at its natural fuel. -/
def slotsFrom (time endT interval : Nat) : List TimeSlot :=
  slotsFromAux (endT - time) time endT interval

/-- Version 1 `generateTimeSlots`: fixed window 08:00 (480 min) to
18:00 (1080 min). -/
def generateTimeSlotsV1 (interval : Nat) : List TimeSlot :=
  slotsFrom (8 * 60) (18 * 60) interval

/-- Version 1 `getTimeSlotIndex`: `Math.floor((t - firstSlot) / interval)`
clamped by `Math.max(0, Math.min(idx, slots.length - 1))`.  The subtraction
can be negative, so it is carried out in `Int` with `Int.fdiv` for
`Math.floor`.  (`slots.headI` models `this.timeSlots[0]`; the source indexes
it unconditionally and version 1's slot list is never empty.) -/
def getTimeSlotIndex (slots : List TimeSlot) (interval : Nat) (t : Nat) : Nat :=
  (max 0 (min (((t : Int) - (slots.headI.minutes : Int)).fdiv (interval : Int))
    ((slots.length : Int) - 1))).toNat

/-- JavaScript `Math.ceil(d / i)` for an integer numerator and a positive
integer divisor, via the identity `ceil (d / i) = floor ((d + i - 1) / i)`. -/
def jsCeilDiv (d : Int) (i : Nat) : Int :=
  (d + (i : Int) - 1).fdiv (i : Int)

/-- Version 1 `getRowSpan`: the raw ceiling of `duration / interval`, no
minimum enforced (policy A). -/
def getRowSpanV1 (duration : Int) (interval : Nat) : Int :=
  jsCeilDiv duration interval

/-- Version 2 `getRowSpan`:
`Math.max(minRowSpan, Math.ceil(duration / interval))` (policy B). -/
def getRowSpanV2 (duration : Int) (interval : Nat) (minRowSpan : Nat) : Int :=
  max (minRowSpan : Int) (jsCeilDiv duration interval)

/-- Number of slots the generation loop emits for the window (half-open, step
`interval`): the ceiling of `(endT - time) / interval`. -/
def numSlots (time endT interval : Nat) : Nat :=
  (endT - time + interval - 1) / interval

theorem slotsFromAux_minutes (interval : Nat) (hi : 0 < interval) :
    ∀ (n time endT : Nat), endT - time ≤ n →
      (slotsFromAux n time endT interval).map (·.minutes) =
        (List.range (numSlots time endT interval)).map (fun k => time + k * interval) := by
  intro n
  induction n with
  | zero =>
    intro time endT h
    have hle : endT ≤ time := by omega
    have : numSlots time endT interval = 0 := by
      unfold numSlots
      have : endT - time = 0 := by omega
      rw [this]
      exact Nat.div_eq_of_lt (by omega)
    rw [this]
    simp [slotsFromAux]
  | succ n ih =>
    intro time endT h
    by_cases hlt : time < endT
    · show ((slotsFromAux (n + 1) time endT interval).map (·.minutes)) = _
      rw [slotsFromAux]
      rw [if_pos ⟨hlt, hi⟩]
      have hrec := ih (time + interval) endT (by omega)
      have hcount : numSlots time endT interval = numSlots (time + interval) endT interval + 1 := by
        unfold numSlots
        set D := endT - time with hD
        have hD1 : 1 ≤ D := by omega
        have h1 : D + interval - 1 = (D - 1) + interval := by omega
        rw [h1, Nat.add_div_right _ hi]
        have h2 : endT - (time + interval) = D - interval := by omega
        rw [h2]
        by_cases hDi : D ≤ interval
        · have : D - interval = 0 := by omega
          rw [this]
          have e1 : (D - 1) / interval = 0 := Nat.div_eq_of_lt (by omega)
          have e2 : (0 + interval - 1) / interval = 0 := Nat.div_eq_of_lt (by omega)
          rw [e1, e2]
        · have h3 : D - interval + interval - 1 = (D - interval - 1) + interval := by omega
          rw [h3, Nat.add_div_right _ hi]
          have h4 : D - 1 = (D - interval - 1) + interval := by omega
          rw [h4, Nat.add_div_right _ hi]
      rw [hcount, List.range_succ_eq_map]
      simp only [List.map_cons, List.map_map, hrec]
      congr 1
      · simp [mkSlot]
      · apply List.map_congr_left
        intro k _
        simp only [Function.comp, Nat.succ_eq_add_one]
        ring
    · rw [slotsFromAux]
      rw [if_neg (by omega)]
      have : numSlots time endT interval = 0 := by
        unfold numSlots
        have : endT - time = 0 := by omega
        rw [this]
        exact Nat.div_eq_of_lt (by omega)
      rw [this]
      simp

theorem slotsFrom_map (time endT interval : Nat) (hi : 0 < interval) :
    (slotsFrom time endT interval).map (·.minutes) =
      (List.range (numSlots time endT interval)).map (fun k => time + k * interval) :=
  slotsFromAux_minutes interval hi (endT - time) time endT (Nat.le_refl _)

theorem slotsFrom_length (time endT interval : Nat) (hi : 0 < interval) :
    (slotsFrom time endT interval).length = numSlots time endT interval := by
  have h := slotsFrom_map time endT interval hi
  have := congrArg List.length h
  simpa using this

/-! ## Event normalization (`prepareData`, `processTime`, `getDayOfWeek`) -/

/-- A raw event record (source format, §3/§6 of the spec).  The optional
free-text fields model the source's `event.Matière`, `event.Salle`,
`event.Personnel`, `event.Groupe`, `event["Catégorie d'événement"]` and
`event.Remarques`; `none` is an absent field. -/
structure RawRecord where
  date : String
  heure : String
  matiere : Option String := none
  salle : Option String := none
  personnel : Option String := none
  groupe : Option String := none
  categorie : Option String := none
  remarques : Option String := none
deriving DecidableEq

/-- JavaScript `v || d` for a possibly-absent string field: both an absent
field (`undefined`) and the empty string are falsy and yield the default. -/
def jsOr (v : Option String) (d : String) : String :=
  match v with
  | none => d
  | some s => if s = "" then d else s

/-- A normalized event as produced by `prepareData` (both versions build the
same object).  `slotIndex` is cached on the event later by version 1's
`render` pre-pass; it is 0 at construction. -/
structure NEvent where
  startTime : String
  endTime : String
  startMinutes : Nat
  endMinutes : Nat
  duration : Int
  name : String
  location : String
  staff : String
  group : String
  category : String
  remarks : String
  slotIndex : Nat := 0
deriving DecidableEq

/-- Result of `processTime`: matched substrings and derived minute offsets. -/
structure TimeInfo where
  startTime : String
  endTime : String
  startMinutes : Nat
  endMinutes : Nat
  duration : Int
deriving DecidableEq

/-- Numeric value of a decimal digit character. -/
def digitVal (c : Char) : Nat := c.toNat - 48

/-- Matches `:` followed by exactly two digits (the `:\d\x7b2\x7d` part of the
time regex); returns the two digit characters, their value, and the rest. -/
def matchColonMM (cs : List Char) : Option (List Char × Nat × List Char) :=
  match cs with
  | ':' :: a :: b :: rest =>
    if a.isDigit && b.isDigit then
      some ([a, b], (digitVal a) * 10 + digitVal b, rest)
    else none
  | _ => none

/-- Matches the greedy `\d\x7b1,2\x7d` hour part: first try two digits, then
one, handing the rest of the input to the continuation (so that a failing
continuation backtracks into the one-digit alternative, as the regex engine
does). -/
def matchHour (cs : List Char) (k : List Char → Nat → List Char → Option TimeInfo) :
    Option TimeInfo :=
  (match cs with
   | a :: b :: rest =>
     if a.isDigit && b.isDigit then k [a, b] ((digitVal a) * 10 + digitVal b) rest else none
   | _ => none) <|>
  (match cs with
   | a :: rest => if a.isDigit then k [a] (digitVal a) rest else none
   | _ => none)

/-- Attempts the whole pattern `(\d\x7b1,2\x7d:\d\x7b2\x7d)-(\d\x7b1,2\x7d:\d\x7b2\x7d)`
at the current position, building the `processTime` result on success
(start/end label strings, minute offsets, and `duration = end - start`,
which JavaScript computes as a possibly negative number). -/
def matchRangeAt (cs : List Char) : Option TimeInfo :=
  matchHour cs (fun hc hv rest1 =>
    (matchColonMM rest1).bind (fun p1 =>
      match p1 with
      | (mc, mv, rest2) =>
        match rest2 with
        | '-' :: rest3 =>
          matchHour rest3 (fun hc2 hv2 rest4 =>
            (matchColonMM rest4).map (fun p2 =>
              match p2 with
              | (mc2, mv2, _) =>
                { startTime := String.mk (hc ++ ':' :: mc)
                  endTime := String.mk (hc2 ++ ':' :: mc2)
                  startMinutes := hv * 60 + mv
                  endMinutes := hv2 * 60 + mv2
                  duration := ((hv2 * 60 + mv2 : Nat) : Int) - ((hv * 60 + mv : Nat) : Int) }))
        | _ => none))

/-- An unanchored regex `match`: try the pattern at every position, leftmost
first. -/
def searchTimeRange : List Char → Option TimeInfo
  | [] => none
  | c :: rest => matchRangeAt (c :: rest) <|> searchTimeRange rest

/-- The source's `processTime`: match the time-range pattern anywhere in the
string and convert both clock readings to minutes from midnight.  `none`
models the `TypeError` the source raises when `timeStr.match(...)` returns
`null` and `.slice` is called on it — the `MalformedTimeRange` condition of
the spec. -/
def processTime (s : String) : Option TimeInfo :=
  searchTimeRange s.data

/-- Day names indexed by `Date.getDay()` in version 1 — the array has only
six entries, so index 6 (Saturday) reads `undefined`. -/
def dayNamesV1 : List String :=
  ["Sunday", "Monday", "Tuesday", "Wednesday", "Thursday", "Friday"]

/-- Day names indexed by `Date.getDay()` in version 2 (all seven). -/
def dayNamesV2 : List String :=
  ["Sunday", "Monday", "Tuesday", "Wednesday", "Thursday", "Friday", "Saturday"]

/-- Zeller's congruence: day of week of the Gregorian date `d/m/y`, in the
encoding of JavaScript `Date.prototype.getDay` (0 = Sunday … 6 = Saturday).
`new Date(y, m-1, d)` with in-range components resolves to exactly this
weekday; out-of-range component rollover (a JS `Date` quirk no claim
exercises) is not modelled. -/
def jsGetDay (d m y : Nat) : Nat :=
  let m' := if m ≤ 2 then m + 12 else m
  let y' := if m ≤ 2 then y - 1 else y
  let K := y' % 100
  let J := y' / 100
  let h := (d + 13 * (m' + 1) / 5 + K + K / 4 + J / 4 + 5 * J) % 7
  (h + 6) % 7

/-- JavaScript `str.split(sep)` over the character list (separator a single
character, as in the source's `dateStr.split("/")`). -/
def splitCharAux (sep : Char) : List Char → List Char → List (List Char)
  | [], acc => [acc.reverse]
  | c :: cs, acc =>
    if c = sep then acc.reverse :: splitCharAux sep cs []
    else splitCharAux sep cs (c :: acc)

/-- JavaScript `str.split(sep)` returning strings. -/
def jsSplit (s : String) (sep : Char) : List String :=
  (splitCharAux sep s.data []).map String.mk

/-- JavaScript numeric coercion of a date-component string, as the `Date`
constructor applies it: a non-empty all-digit string yields its value; other
strings yield `NaN` and hence an invalid date, modelled as `none`.  (The
JS quirks `Number("") = 0` and exponent/sign forms never arise from the
date strings the library consumes and are not modelled.) -/
def jsNumberNat (s : String) : Option Nat :=
  if s.data ≠ [] ∧ s.data.all (·.isDigit) then
    some (s.data.foldl (fun a c => a * 10 + digitVal c) 0)
  else none

/-- The source's `getDayOfWeek` (version 2): split `dd/mm/yyyy`, build the
date, and index the day-name array with `getDay()`.  A date string that does
not yield three numeric parts produces an invalid `Date` whose `getDay()` is
`NaN`, indexing the array at `undefined` — modelled as `none`.  A two-digit
year is interpreted by the `Date` constructor as 1900 + y. -/
def getDayOfWeek (dateStr : String) : Option String :=
  match (jsSplit dateStr '/').map jsNumberNat with
  | [some d, some m, some y] =>
    let y2 := if y ≤ 99 then 1900 + y else y
    dayNamesV2.get? (jsGetDay d m y2)
  | _ => none

/-- The failure condition of normalization (spec §7 `MalformedTimeRange`;
in the source a `TypeError` thrown out of `processTime`). -/
inductive PrepError where
  | malformedTimeRange
deriving DecidableEq

deriving instance DecidableEq for Except

/-- The per-weekday event buckets, in configured weekday order
(`prepared` in the source). -/
abbrev Schedule := List (String × List NEvent)

/-- The empty bucket map `prepared` is initialized with
(`weekdays.forEach(day => prepared[day] = [])`). -/
def initSchedule (weekdays : List String) : Schedule :=
  weekdays.map (fun d => (d, []))

/-- `prepared[day].push(e)`. -/
def pushEvent (sched : Schedule) (day : String) (e : NEvent) : Schedule :=
  sched.map (fun b => if b.1 = day then (b.1, b.2 ++ [e]) else b)

/-- The event object pushed by `prepareData`, including the field defaulting
chain `event.Matière || event["Catégorie d'événement"] || "Unspecified"`
and the single-field defaults. -/
def mkEvent (ti : TimeInfo) (r : RawRecord) : NEvent :=
  { startTime := ti.startTime
    endTime := ti.endTime
    startMinutes := ti.startMinutes
    endMinutes := ti.endMinutes
    duration := ti.duration
    name := jsOr r.matiere (jsOr r.categorie "Unspecified")
    location := jsOr r.salle "TBD"
    staff := jsOr r.personnel "N/A"
    group := jsOr r.groupe "All"
    category := jsOr r.categorie "Other"
    remarks := jsOr r.remarques ""
    slotIndex := 0 }

/-- The `rawData.forEach` loop of `prepareData`: resolve the weekday; if its
bucket exists (`if (prepared[day])`) parse the time — aborting everything on
a malformed time string — and push the normalized event; otherwise skip the
record silently. -/
def prepareGo (weekdays : List String) : List RawRecord → Schedule → Except PrepError Schedule
  | [], acc => .ok acc
  | r :: rs, acc =>
    match getDayOfWeek r.date with
    | none => prepareGo weekdays rs acc
    | some day =>
      if day ∈ weekdays then
        match processTime r.heure with
        | none => .error .malformedTimeRange
        | some ti => prepareGo weekdays rs (pushEvent acc day (mkEvent ti r))
      else prepareGo weekdays rs acc

/-- The source's `prepareData` (the normalization logic is identical in both
versions up to the apostrophe character inside the category key). -/
def prepareData (weekdays : List String) (rawData : List RawRecord) :
    Except PrepError Schedule :=
  prepareGo weekdays rawData (initSchedule weekdays)

/-! ## Version 2 time-slot generation (data-driven bounds) -/

/-- The `earliestStart` fold of version 2's `generateTimeSlots`: minimum
`startMinutes` over every event of every day bucket, starting from
`23 * 60 + 59`. -/
def earliestStart (data : Schedule) : Nat :=
  data.foldl (fun acc b => b.2.foldl (fun a e => min a e.startMinutes) acc) (23 * 60 + 59)

/-- The `latestEnd` fold of version 2's `generateTimeSlots`: maximum
`endMinutes` over every event of every day bucket, starting from 0. -/
def latestEnd (data : Schedule) : Nat :=
  data.foldl (fun acc b => b.2.foldl (fun a e => max a e.endMinutes) acc) 0

/-- Version 2 `generateTimeSlots`: round `earliestStart` down and `latestEnd`
up to the interval (`Math.floor(e / i) * i` and `Math.ceil(l / i) * i`), then
run the same generation loop. -/
def generateTimeSlotsV2 (data : Schedule) (interval : Nat) : List TimeSlot :=
  slotsFrom (earliestStart data / interval * interval)
    ((latestEnd data + interval - 1) / interval * interval) interval

/-! ## The row / occupancy layout loop (`render`)

The row loop of `render` walks the slot indices in order; for each day column
it skips rows marked occupied, emits one cell per event starting in the row
(or a single empty cell), and marks the `rowSpan - 1` following rows of each
emitted event as occupied.  The `cellOccupied[day]` maps and the emitted
cells of distinct days never interact, so the loop is modelled per day
column; `occ : Nat → Bool` is that day's `cellOccupied` map. -/

/-- A cell emitted into a day column: either an empty filler cell or an
event cell, tagged with the slot index of the row it was emitted in. -/
inductive Cell where
  | empty : Nat → Cell
  | event : Nat → NEvent → Cell
deriving DecidableEq

/-- Row (slot index) a cell was emitted in. -/
def Cell.row : Cell → Nat
  | .empty r => r
  | .event r _ => r

/-- The marking loop
`for (let i = 1; i < rowSpan && slotIndex + i < slots.length; i++)
cellOccupied[day][slotIndex + i] = true`, started at an arbitrary `i` and
written with explicit fuel so that it is structurally recursive (the loop
consumes one unit of `rowSpan - i` per iteration). -/
def markLoopAux : Nat → (Nat → Bool) → Nat → Nat → Nat → Nat → (Nat → Bool)
  | 0, occ, _, _, _, _ => occ
  | fuel + 1, occ, s, i, rowSpan, len =>
    if i < rowSpan ∧ s + i < len then
      markLoopAux fuel (fun r => if r = s + i then true else occ r) s (i + 1) rowSpan len
    else occ

/-- The marking loop at its natural fuel. -/
def markLoop (occ : Nat → Bool) (s i rowSpan len : Nat) : Nat → Bool :=
  markLoopAux (rowSpan - i) occ s i rowSpan len

/-- Occupancy marking of one emitted event: the loop above runs only under
the source's `if (rowSpan > 1)` guard, starting at `i = 1`. -/
def markSpan (occ : Nat → Bool) (s rowSpan len : Nat) : Nat → Bool :=
  if 1 < rowSpan then markLoop occ s 1 rowSpan len else occ

/-- The `eventsStartingHere.forEach` body: emit one event cell per event and
mark the tail of its span as occupied. -/
def emitEvents (span : NEvent → Nat) (len k : Nat) :
    List NEvent → (Nat → Bool) × List Cell → (Nat → Bool) × List Cell
  | [], acc => acc
  | e :: es, (occ, cells) =>
    emitEvents span len k es (markSpan occ k (span e) len, cells ++ [Cell.event k e])

/-- One day-column step of the row loop at slot index `k`: skip the row if it
is occupied, otherwise emit the cells of the events starting here, or a
single empty cell when none do.  (The source's redundant second
`!cellOccupied[day][slotIndex]` check before the empty cell is always true at
that point: marks only ever target strictly later rows.) -/
def renderStep (span : NEvent → Nat) (startsAt : NEvent → Nat → Bool) (len : Nat)
    (events : List NEvent) (acc : (Nat → Bool) × List Cell) (k : Nat) :
    (Nat → Bool) × List Cell :=
  if acc.1 k then acc
  else
    let starting := events.filter (fun e => startsAt e k)
    if starting.isEmpty then (acc.1, acc.2 ++ [Cell.empty k])
    else emitEvents span len k starting acc

/-- One day column of the row loop: fold the step over slot indices
`0, 1, …, len - 1` starting from an unoccupied column with no cells.
`span` computes `this.getRowSpan(event.duration)` and `startsAt` is the
`eventsStartingHere` filter predicate, so the same loop serves both
versions. -/
def renderDay (span : NEvent → Nat) (startsAt : NEvent → Nat → Bool)
    (events : List NEvent) (len : Nat) : (Nat → Bool) × List Cell :=
  (List.range len).foldl (renderStep span startsAt len events) ((fun _ => false), [])

/-- The per-day sort `this.data[day].sort((a, b) => a.startMinutes -
b.startMinutes)`.  `Array.prototype.sort` is a stable sort (ES2019) and the
comparator orders by `startMinutes` ascending, which is exactly a stable
merge sort under `a.startMinutes ≤ b.startMinutes`. -/
def sortDay (l : List NEvent) : List NEvent :=
  l.mergeSort (fun a b => a.startMinutes ≤ b.startMinutes)

/-- Version 1's `render` pre-pass caching `event.slotIndex =
this.getTimeSlotIndex(event.startMinutes)` on each (sorted) event of a day,
followed by the row loop with the `event.slotIndex === slotIndex` filter and
version 1's `getRowSpan`.  (`Int.toNat` on the row span is harmless: the row
loop treats every span below 2 identically, and spans of well-formed events
are positive.) -/
def renderDayV1 (interval : Nat) (slots : List TimeSlot) (events : List NEvent) :
    (Nat → Bool) × List Cell :=
  let sorted := sortDay events
  let assigned := sorted.map
    (fun e => { e with slotIndex := getTimeSlotIndex slots interval e.startMinutes })
  renderDay (fun e => (getRowSpanV1 e.duration interval).toNat)
    (fun e k => e.slotIndex == k) assigned slots.length

/-! ## Characterization of the occupancy marking and the row loop -/

theorem markLoopAux_eq (s len : Nat) :
    ∀ (n i rowSpan : Nat), rowSpan - i ≤ n → ∀ (occ : Nat → Bool) (r : Nat),
      markLoopAux n occ s i rowSpan len r =
        (occ r || decide (s + i ≤ r ∧ r < s + rowSpan ∧ r < len)) := by
  intro n
  induction n with
  | zero =>
    intro i rowSpan h occ r
    have hno : ¬ (s + i ≤ r ∧ r < s + rowSpan ∧ r < len) := by omega
    simp [markLoopAux, hno]
  | succ n ih =>
    intro i rowSpan h occ r
    by_cases hrs : i < rowSpan
    · by_cases hlen : s + i < len
      · rw [markLoopAux, if_pos ⟨hrs, hlen⟩]
        rw [ih (i + 1) rowSpan (by omega)]
        by_cases hr : r = s + i
        · have hyes : s + i ≤ r ∧ r < s + rowSpan ∧ r < len := by omega
          simp only [hr, if_pos rfl, Bool.true_or, decide_eq_true (hyes.imp id (fun p => p))]
          have : (s + i ≤ s + i ∧ s + i < s + rowSpan ∧ s + i < len) := by omega
          simp [this]
        · have : (s + (i + 1) ≤ r ∧ r < s + rowSpan ∧ r < len) ↔
              (s + i ≤ r ∧ r < s + rowSpan ∧ r < len) := by omega
          simp only [if_neg hr, this]
      · rw [markLoopAux, if_neg (by omega)]
        have hno : ¬ (s + i ≤ r ∧ r < s + rowSpan ∧ r < len) := by omega
        simp [hno]
    · rw [markLoopAux, if_neg (by omega)]
      have hno : ¬ (s + i ≤ r ∧ r < s + rowSpan ∧ r < len) := by omega
      simp [hno]

theorem markLoop_eq (s len i rowSpan : Nat) (occ : Nat → Bool) (r : Nat) :
    markLoop occ s i rowSpan len r =
      (occ r || decide (s + i ≤ r ∧ r < s + rowSpan ∧ r < len)) :=
  markLoopAux_eq s len (rowSpan - i) i rowSpan (Nat.le_refl _) occ r

theorem markSpan_eq (occ : Nat → Bool) (s rowSpan len r : Nat) :
    markSpan occ s rowSpan len r =
      (occ r || decide (s < r ∧ r < s + rowSpan ∧ r < len)) := by
  unfold markSpan
  by_cases h1 : 1 < rowSpan
  · rw [if_pos h1, markLoop_eq s len 1 rowSpan]
    have : (s + 1 ≤ r ∧ r < s + rowSpan ∧ r < len) ↔
        (s < r ∧ r < s + rowSpan ∧ r < len) := by omega
    simp only [this]
  · rw [if_neg h1]
    have hno : ¬ (s < r ∧ r < s + rowSpan ∧ r < len) := by omega
    simp [hno]

theorem emitEvents_fst (span : NEvent → Nat) (len k : Nat) :
    ∀ (evs : List NEvent) (occ : Nat → Bool) (cells : List Cell) (r : Nat),
      (emitEvents span len k evs (occ, cells)).1 r =
        (occ r || evs.any (fun e => decide (k < r ∧ r < k + span e ∧ r < len))) := by
  intro evs
  induction evs with
  | nil => intro occ cells r; simp [emitEvents]
  | cons e es ih =>
    intro occ cells r
    rw [emitEvents, ih, markSpan_eq]
    simp [Bool.or_assoc]

theorem emitEvents_snd (span : NEvent → Nat) (len k : Nat) :
    ∀ (evs : List NEvent) (occ : Nat → Bool) (cells : List Cell),
      (emitEvents span len k evs (occ, cells)).2 = cells ++ evs.map (Cell.event k) := by
  intro evs
  induction evs with
  | nil => intro occ cells; simp [emitEvents]
  | cons e es ih =>
    intro occ cells
    rw [emitEvents, ih]
    simp

/-- The three-part invariant of the row loop for one day column, after the
rows `0, …, k - 1` have been processed: all cells sit in processed rows, the
occupancy map holds exactly the rows covered by the tail of some emitted
event's span, and no cell was emitted in an occupied row. -/
def RowInv (span : NEvent → Nat) (len : Nat) (st : (Nat → Bool) × List Cell)
    (k : Nat) : Prop :=
  (∀ c ∈ st.2, Cell.row c < k) ∧
  (∀ r, st.1 r = true ↔
    ∃ s e, Cell.event s e ∈ st.2 ∧ s < r ∧ r < s + span e ∧ r < len) ∧
  (∀ r, st.1 r = true → ∀ c ∈ st.2, Cell.row c ≠ r)

theorem renderStep_inv (span : NEvent → Nat) (startsAt : NEvent → Nat → Bool)
    (len : Nat) (events : List NEvent) (st : (Nat → Bool) × List Cell) (k : Nat)
    (h : RowInv span len st k) :
    RowInv span len (renderStep span startsAt len events st k) (k + 1) := by
  obtain ⟨h1, h2, h3⟩ := h
  unfold renderStep
  by_cases hocc : st.1 k
  · rw [if_pos hocc]
    exact ⟨fun c hc => Nat.lt_succ_of_lt (h1 c hc), h2, h3⟩
  · rw [if_neg hocc]
    set starting := events.filter (fun e => startsAt e k) with hstart
    by_cases hempty : starting.isEmpty
    · rw [if_pos hempty]
      refine ⟨?_, ?_, ?_⟩
      · intro c hc
        rcases List.mem_append.mp hc with hc | hc
        · exact Nat.lt_succ_of_lt (h1 c hc)
        · simp only [List.mem_singleton] at hc
          subst hc
          exact Nat.lt_succ_self k
      · intro r
        rw [h2 r]
        constructor
        · rintro ⟨s, e, hmem, hs⟩
          exact ⟨s, e, List.mem_append.mpr (Or.inl hmem), hs⟩
        · rintro ⟨s, e, hmem, hs⟩
          rcases List.mem_append.mp hmem with hmem | hmem
          · exact ⟨s, e, hmem, hs⟩
          · simp at hmem
      · intro r hr c hc
        rcases List.mem_append.mp hc with hc | hc
        · exact h3 r hr c hc
        · simp only [List.mem_singleton] at hc
          subst hc
          intro hrow
          simp only [Cell.row] at hrow
          subst hrow
          exact hocc hr
    · rw [if_neg hempty]
      obtain ⟨occ, cells⟩ := st
      simp only at hocc h1 h2 h3 ⊢
      refine ⟨?_, ?_, ?_⟩
      · intro c hc
        rw [emitEvents_snd] at hc
        rcases List.mem_append.mp hc with hc | hc
        · exact Nat.lt_succ_of_lt (h1 c hc)
        · rcases List.mem_map.mp hc with ⟨e, _, rfl⟩
          exact Nat.lt_succ_self k
      · intro r
        rw [emitEvents_fst, emitEvents_snd]
        rw [Bool.or_eq_true, h2 r, List.any_eq_true]
        constructor
        · rintro (⟨s, e, hmem, hs⟩ | ⟨e, hmem, hd⟩)
          · exact ⟨s, e, List.mem_append.mpr (Or.inl hmem), hs⟩
          · rw [decide_eq_true_eq] at hd
            exact ⟨k, e, List.mem_append.mpr (Or.inr (List.mem_map_of_mem _ hmem)), hd⟩
        · rintro ⟨s, e, hmem, hs⟩
          rcases List.mem_append.mp hmem with hmem | hmem
          · exact Or.inl ⟨s, e, hmem, hs⟩
          · rcases List.mem_map.mp hmem with ⟨e2, he2, heq⟩
            injection heq with hk he
            subst hk
            subst he
            exact Or.inr ⟨e2, he2, decide_eq_true_eq.mpr hs⟩
      · intro r hr c hc
        rw [emitEvents_fst, Bool.or_eq_true, List.any_eq_true] at hr
        rw [emitEvents_snd] at hc
        rcases List.mem_append.mp hc with hc | hc
        · rcases hr with hr | ⟨e, _, hd⟩
          · exact h3 r hr c hc
          · rw [decide_eq_true_eq] at hd
            have := h1 c hc
            omega
        · rcases List.mem_map.mp hc with ⟨e', _, rfl⟩
          simp only [Cell.row]
          rcases hr with hr | ⟨e, _, hd⟩
          · intro hkr
            rw [hkr] at hocc
            exact hocc hr
          · rw [decide_eq_true_eq] at hd
            omega

theorem renderDay_inv (span : NEvent → Nat) (startsAt : NEvent → Nat → Bool)
    (events : List NEvent) (len : Nat) :
    ∀ k, RowInv span len
      ((List.range k).foldl (renderStep span startsAt len events) ((fun _ => false), [])) k := by
  intro k
  induction k with
  | zero =>
    refine ⟨?_, ?_, ?_⟩
    · intro c hc; simp at hc
    · intro r
      simp
    · intro r hr; simp at hr
  | succ k ih =>
    rw [List.range_succ, List.foldl_append]
    exact renderStep_inv span startsAt len events _ k ih

/-! ## Claim theorems -/

/-- C1: in every day column (for any row-span function and starting-row
filter, covering both versions' `render`), the rows an emitted event's span
marks occupied are exactly `slotIndex + 1 … slotIndex + rowSpan - 1`
truncated at the grid length — never the event's own starting row, never a
row at or beyond `slotIndex + rowSpan`; the occupancy map holds exactly the
rows so marked by some emitted event; and a row marked occupied gets no cell
at all in that day's column. -/
theorem occupied_rows_exact_and_skipped (span : NEvent → Nat)
    (startsAt : NEvent → Nat → Bool) (events : List NEvent) (len : Nat) :
    (∀ (occ : Nat → Bool) (k rowSpan r : Nat),
      markSpan occ k rowSpan len r =
        (occ r || decide (k < r ∧ r < k + rowSpan ∧ r < len))) ∧
    (∀ r, (renderDay span startsAt events len).1 r = true ↔
      ∃ s e, Cell.event s e ∈ (renderDay span startsAt events len).2 ∧
        s < r ∧ r < s + span e ∧ r < len) ∧
    (∀ r, (renderDay span startsAt events len).1 r = true →
      ∀ c ∈ (renderDay span startsAt events len).2, Cell.row c ≠ r) := by
  have h := renderDay_inv span startsAt events len len
  exact ⟨fun occ k rowSpan r => markSpan_eq occ k rowSpan len r, h.2.1, h.2.2⟩

/-- C2: version 1's `getRowSpan` is the exact ceiling of
`duration / interval` (characterized by `i * (q - 1) < d ≤ i * q`), version
2's is the maximum of `minRowSpan` and that ceiling; the spec's two scenarios
follow (60-minute event at interval 15: span 4 under both; 10-minute event at
interval 15 with minRowSpan 2: span 2 under policy B). -/
theorem getRowSpan_policies (d : Int) (i m : Nat) (hi : 0 < i) :
    ((i : Int) * (getRowSpanV1 d i - 1) < d ∧ d ≤ (i : Int) * getRowSpanV1 d i) ∧
    getRowSpanV2 d i m = max (m : Int) (getRowSpanV1 d i) ∧
    getRowSpanV1 60 15 = 4 ∧ getRowSpanV2 60 15 2 = 4 ∧ getRowSpanV2 10 15 2 = 2 := by
  refine ⟨?_, rfl, by decide, by decide, by decide⟩
  unfold getRowSpanV1 jsCeilDiv
  rw [Int.fdiv_eq_ediv _ (by positivity)]
  have hi0 : (i : Int) ≠ 0 := by positivity
  have hmod := Int.ediv_add_emod (d + (i : Int) - 1) (i : Int)
  have hnn := Int.emod_nonneg (d + (i : Int) - 1) hi0
  have hlt := Int.emod_lt_of_pos (d + (i : Int) - 1) (by positivity : (0 : Int) < (i : Int))
  constructor
  · nlinarith [hmod, hnn, hlt]
  · nlinarith [hmod, hnn, hlt]

/-- Witness for C2 at `d = 60`, `i = 15`, `m = 2`. -/
theorem getRowSpan_policies_witness :
    (0 : Nat) < 15 ∧
      (((15 : Nat) : Int) * (getRowSpanV1 60 15 - 1) < 60 ∧
        (60 : Int) ≤ ((15 : Nat) : Int) * getRowSpanV1 60 15) ∧
      getRowSpanV2 60 15 2 = max ((2 : Nat) : Int) (getRowSpanV1 60 15) ∧
      getRowSpanV1 60 15 = 4 ∧ getRowSpanV2 60 15 2 = 4 ∧ getRowSpanV2 10 15 2 = 2 :=
  ⟨by decide, getRowSpan_policies 60 15 2 (by decide)⟩

theorem slotsFrom_get (a b i : Nat) (hi : 0 < i) (j : Nat)
    (hj : j < (slotsFrom a b i).length) :
    ((slotsFrom a b i).get ⟨j, hj⟩).minutes = a + j * i := by
  have hmap := slotsFrom_map a b i hi
  have hlen := slotsFrom_length a b i hi
  have h2 := congrArg (fun l => l[j]?) hmap
  simp only [List.getElem?_map] at h2
  rw [List.getElem?_range (by omega), List.getElem?_eq_getElem hj] at h2
  simpa using h2

/-- C3: for version 1's generated grid, `getTimeSlotIndex` returns a row
strictly below the slot count; an event starting before the first slot is
clamped to row 0; an event starting at or past the end of the last slot's
window is clamped to the last row; and an event whose start falls inside the
window `slot.minutes ≤ t < slot.minutes + interval` of the slot at index `j`
(the unique such slot, hence the first) is assigned exactly row `j`. -/
theorem getTimeSlotIndex_spec (interval t : Nat) (hi : 0 < interval) :
    getTimeSlotIndex (generateTimeSlotsV1 interval) interval t <
      (generateTimeSlotsV1 interval).length ∧
    (t < 480 → getTimeSlotIndex (generateTimeSlotsV1 interval) interval t = 0) ∧
    (∀ last, (generateTimeSlotsV1 interval).getLast? = some last →
      last.minutes + interval ≤ t →
      getTimeSlotIndex (generateTimeSlotsV1 interval) interval t =
        (generateTimeSlotsV1 interval).length - 1) ∧
    (∀ j (hj : j < (generateTimeSlotsV1 interval).length),
      ((generateTimeSlotsV1 interval).get ⟨j, hj⟩).minutes ≤ t →
      t < ((generateTimeSlotsV1 interval).get ⟨j, hj⟩).minutes + interval →
      getTimeSlotIndex (generateTimeSlotsV1 interval) interval t = j) := by
  have hV1 : generateTimeSlotsV1 interval = slotsFrom 480 1080 interval := by
    unfold generateTimeSlotsV1
    norm_num
  have hlen : (generateTimeSlotsV1 interval).length = numSlots 480 1080 interval := by
    rw [hV1]
    exact slotsFrom_length 480 1080 interval hi
  have hN1 : 1 ≤ numSlots 480 1080 interval := by
    unfold numSlots
    rw [Nat.le_div_iff_mul_le hi]
    omega
  have hmap : (generateTimeSlotsV1 interval).map (·.minutes) =
      (List.range (numSlots 480 1080 interval)).map (fun k => 480 + k * interval) := by
    rw [hV1]
    exact slotsFrom_map 480 1080 interval hi
  have hgetq : ∀ j, j < numSlots 480 1080 interval →
      Option.map (·.minutes) (generateTimeSlotsV1 interval)[j]? =
        some (480 + j * interval) := by
    intro j hjN
    have h2 := congrArg (fun l => l[j]?) hmap
    simp only [List.getElem?_map] at h2
    rw [List.getElem?_range hjN] at h2
    simpa using h2
  have hget : ∀ j (hj : j < (generateTimeSlotsV1 interval).length),
      ((generateTimeSlotsV1 interval).get ⟨j, hj⟩).minutes = 480 + j * interval := by
    intro j hj
    have hjN : j < numSlots 480 1080 interval := by omega
    have h2 := hgetq j hjN
    rw [List.getElem?_eq_getElem hj] at h2
    rw [List.get_eq_getElem]
    simpa using h2
  have h0 : 0 < (generateTimeSlotsV1 interval).length := by omega
  have hhead : (generateTimeSlotsV1 interval).headI.minutes = 480 := by
    have h00 := hgetq 0 (by omega)
    rcases hcons : generateTimeSlotsV1 interval with _ | ⟨s, ss⟩
    · rw [hcons] at h0
      simp at h0
    · rw [hcons] at h00
      simp only [List.getElem?_cons_zero, Option.map_some', Option.some.injEq] at h00
      simp only [List.headI]
      omega
  have hexp : getTimeSlotIndex (generateTimeSlotsV1 interval) interval t =
      (max 0 (min (((t : Int) - 480).fdiv (interval : Int))
        ((numSlots 480 1080 interval : Int) - 1))).toNat := by
    unfold getTimeSlotIndex
    rw [hhead, hlen]
    norm_num
  refine ⟨?_, ?_, ?_, ?_⟩
  · rw [hexp, hlen]
    omega
  · intro ht
    rw [hexp]
    have hneg : ((t : Int) - 480).fdiv (interval : Int) < 0 :=
      Int.fdiv_neg' (by omega) (by positivity)
    omega
  · intro last hlast hle
    rw [hexp, hlen]
    rw [List.getLast?_eq_getElem?, hlen] at hlast
    have h3 := hgetq (numSlots 480 1080 interval - 1) (by omega)
    rw [hlast] at h3
    simp only [Option.map_some', Option.some.injEq] at h3
    have hlv : last.minutes = 480 +
        (numSlots 480 1080 interval - 1) * interval := by omega
    set N := numSlots 480 1080 interval with hNdef
    have hmul : (N - 1) * interval + interval = N * interval := by
      have h9 : N - 1 + 1 = N := by omega
      calc (N - 1) * interval + interval = (N - 1 + 1) * interval := by ring
        _ = N * interval := by rw [h9]
    have ht480 : 480 + N * interval ≤ t := by
      rw [hlv] at hle
      set P := N * interval
      set Q := (N - 1) * interval
      omega
    have hcast : (t : Int) - 480 = ((t - 480 : Nat) : Int) := by
      have : 480 ≤ t := by
        set P := N * interval
        omega
      omega
    have hfd : ((t : Int) - 480).fdiv (interval : Int) =
        (((t - 480) / interval : Nat) : Int) := by
      rw [hcast, ← Int.ofNat_fdiv]
    have hdivge : N ≤ (t - 480) / interval := by
      rw [Nat.le_div_iff_mul_le hi]
      set P := N * interval
      omega
    rw [hfd]
    omega
  · intro j hj hlo hhi2
    rw [hget j hj] at hlo hhi2
    rw [hexp]
    have hjN : j < numSlots 480 1080 interval := by omega
    have hcast : (t : Int) - 480 = ((t - 480 : Nat) : Int) := by
      have : 480 ≤ t := by
        set Q := j * interval
        omega
      omega
    have hfd : ((t : Int) - 480).fdiv (interval : Int) =
        (((t - 480) / interval : Nat) : Int) := by
      rw [hcast, ← Int.ofNat_fdiv]
    have hdiv : (t - 480) / interval = j := by
      apply Nat.div_eq_of_lt_le
      · set Q := j * interval
        omega
      · have hsm : (j + 1) * interval = j * interval + interval := by ring
        rw [hsm]
        set Q := j * interval
        omega
    rw [hfd, hdiv]
    omega

/-- Witness for C3 at `interval = 15`, `t = 545` (09:05): row 4 (09:00). -/
theorem getTimeSlotIndex_spec_witness :
    (0 : Nat) < 15 ∧
      getTimeSlotIndex (generateTimeSlotsV1 15) 15 545 <
        (generateTimeSlotsV1 15).length := by
  exact ⟨by decide, (getTimeSlotIndex_spec 15 545 (by decide)).1⟩

/-! ## Facts about the data-driven grid bounds (version 2) -/

/-- All normalized events of a schedule, in bucket order (the order
`Object.values(this.data).forEach` visits them). -/
def allEventsOf (data : Schedule) : List NEvent :=
  (data.map (·.2)).flatten

/-- The start minutes of all events of a schedule. -/
def allStartMinutes (data : Schedule) : List Nat :=
  (allEventsOf data).map (·.startMinutes)

/-- The end minutes of all events of a schedule. -/
def allEndMinutes (data : Schedule) : List Nat :=
  (allEventsOf data).map (·.endMinutes)

theorem foldl_min_le_init (l : List Nat) : ∀ a, l.foldl min a ≤ a := by
  induction l with
  | nil => intro a; exact Nat.le_refl a
  | cons y ys ih =>
    intro a
    calc ys.foldl min (min a y) ≤ min a y := ih (min a y)
      _ ≤ a := Nat.min_le_left a y

theorem foldl_min_le_mem (l : List Nat) : ∀ a, ∀ x ∈ l, l.foldl min a ≤ x := by
  induction l with
  | nil => intro a x hx; simp at hx
  | cons y ys ih =>
    intro a x hx
    rcases List.mem_cons.mp hx with rfl | hx
    · calc ys.foldl min (min a x) ≤ min a x := foldl_min_le_init ys (min a x)
        _ ≤ x := Nat.min_le_right a x
    · exact ih (min a y) x hx

theorem foldl_min_eq_or_mem (l : List Nat) : ∀ a, l.foldl min a = a ∨ l.foldl min a ∈ l := by
  induction l with
  | nil => intro a; exact Or.inl rfl
  | cons y ys ih =>
    intro a
    rcases ih (min a y) with h | h
    · rcases min_choice a y with hm | hm
      · exact Or.inl (by rw [List.foldl_cons, h, hm])
      · exact Or.inr (by rw [List.foldl_cons, h, hm]; exact List.mem_cons_self y ys)
    · exact Or.inr (List.mem_cons_of_mem y h)

theorem foldl_max_init_le (l : List Nat) : ∀ a, a ≤ l.foldl max a := by
  induction l with
  | nil => intro a; exact Nat.le_refl a
  | cons y ys ih =>
    intro a
    calc a ≤ max a y := Nat.le_max_left a y
      _ ≤ ys.foldl max (max a y) := ih (max a y)

theorem foldl_max_mem_le (l : List Nat) : ∀ a, ∀ x ∈ l, x ≤ l.foldl max a := by
  induction l with
  | nil => intro a x hx; simp at hx
  | cons y ys ih =>
    intro a x hx
    rcases List.mem_cons.mp hx with rfl | hx
    · calc x ≤ max a x := Nat.le_max_right a x
        _ ≤ ys.foldl max (max a x) := foldl_max_init_le ys (max a x)
    · exact ih (max a y) x hx

theorem foldl_max_eq_or_mem (l : List Nat) : ∀ a, l.foldl max a = a ∨ l.foldl max a ∈ l := by
  induction l with
  | nil => intro a; exact Or.inl rfl
  | cons y ys ih =>
    intro a
    rcases ih (max a y) with h | h
    · rcases max_choice a y with hm | hm
      · exact Or.inl (by rw [List.foldl_cons, h, hm])
      · exact Or.inr (by rw [List.foldl_cons, h, hm]; exact List.mem_cons_self y ys)
    · exact Or.inr (List.mem_cons_of_mem y h)

theorem earliestStart_eq (data : Schedule) :
    earliestStart data = (allStartMinutes data).foldl min (23 * 60 + 59) := by
  simp only [earliestStart, allStartMinutes, allEventsOf, List.map_flatten,
    List.foldl_flatten, List.foldl_map]

theorem latestEnd_eq (data : Schedule) :
    latestEnd data = (allEndMinutes data).foldl max 0 := by
  simp only [latestEnd, allEndMinutes, allEventsOf, List.map_flatten,
    List.foldl_flatten, List.foldl_map]

/-- C6: under the data-driven bound policy (version 2), the fold results are
the true minimum start / maximum end over all days' events, and the generated
slot sequence covers exactly `[gridStart, gridEnd)` stepping by `interval`,
with `gridStart = floor(min start / interval) * interval` and
`gridEnd = ceil(max end / interval) * interval`.  (The `≤ 1439` hypothesis is
the data model's `startMinutes` range; the fold's accumulator starts at
`23 * 60 + 59`.) -/
theorem generateTimeSlotsV2_spec (data : Schedule) (interval : Nat) (hi : 0 < interval)
    (hne : allEventsOf data ≠ [])
    (hstart : ∀ s ∈ allStartMinutes data, s ≤ 1439) :
    (earliestStart data ∈ allStartMinutes data ∧
      ∀ s ∈ allStartMinutes data, earliestStart data ≤ s) ∧
    (latestEnd data ∈ allEndMinutes data ∧
      ∀ x ∈ allEndMinutes data, x ≤ latestEnd data) ∧
    (generateTimeSlotsV2 data interval).map (·.minutes) =
      (List.range (((latestEnd data + interval - 1) / interval * interval -
          earliestStart data / interval * interval) / interval)).map
        (fun k => earliestStart data / interval * interval + k * interval) ∧
    (∀ m ∈ (generateTimeSlotsV2 data interval).map (·.minutes),
      earliestStart data / interval * interval ≤ m ∧
        m < (latestEnd data + interval - 1) / interval * interval) ∧
    (∀ m, earliestStart data / interval * interval ≤ m →
      m < (latestEnd data + interval - 1) / interval * interval →
      (m - earliestStart data / interval * interval) % interval = 0 →
      m ∈ (generateTimeSlotsV2 data interval).map (·.minutes)) := by
  have hneS : allStartMinutes data ≠ [] := by
    unfold allStartMinutes
    simp only [ne_eq, List.map_eq_nil_iff]
    exact hne
  have hneE : allEndMinutes data ≠ [] := by
    unfold allEndMinutes
    simp only [ne_eq, List.map_eq_nil_iff]
    exact hne
  set gS := earliestStart data / interval * interval with hgSdef
  set gE := (latestEnd data + interval - 1) / interval * interval with hgEdef
  have hdvdS : interval ∣ gS := Dvd.intro_left _ rfl
  have hdvdE : interval ∣ gE := Dvd.intro_left _ rfl
  obtain ⟨c, hc⟩ := Nat.dvd_sub' hdvdE hdvdS
  have hcount : numSlots gS gE interval = c := by
    unfold numSlots
    rw [hc]
    have h1 : interval * c + interval - 1 = (interval - 1) + interval * c := by
      have h2 : 1 ≤ interval := hi
      omega
    rw [h1, Nat.add_mul_div_left _ _ hi, Nat.div_eq_of_lt (by omega)]
    omega
  have hcval : (gE - gS) / interval = c := by
    rw [hc, Nat.mul_div_cancel_left _ hi]
  have hmapC : (generateTimeSlotsV2 data interval).map (·.minutes) =
      (List.range ((gE - gS) / interval)).map (fun k => gS + k * interval) := by
    unfold generateTimeSlotsV2
    rw [← hgSdef, ← hgEdef, slotsFrom_map gS gE interval hi, hcount, hcval]
  refine ⟨⟨?_, ?_⟩, ⟨?_, ?_⟩, hmapC, ?_, ?_⟩
  · rw [earliestStart_eq]
    rcases foldl_min_eq_or_mem (allStartMinutes data) (23 * 60 + 59) with h | h
    · obtain ⟨x0, hx0⟩ := List.exists_mem_of_ne_nil (allStartMinutes data) hneS
      have hle1 := foldl_min_le_mem (allStartMinutes data) (23 * 60 + 59) x0 hx0
      have hle2 := hstart x0 hx0
      have hx0v : x0 = 23 * 60 + 59 := by omega
      rw [h, ← hx0v]
      exact hx0
    · exact h
  · intro s hs
    rw [earliestStart_eq]
    exact foldl_min_le_mem _ _ s hs
  · rw [latestEnd_eq]
    rcases foldl_max_eq_or_mem (allEndMinutes data) 0 with h | h
    · obtain ⟨x0, hx0⟩ := List.exists_mem_of_ne_nil (allEndMinutes data) hneE
      have hle1 := foldl_max_mem_le (allEndMinutes data) 0 x0 hx0
      have hx0v : x0 = 0 := by omega
      rw [h, ← hx0v]
      exact hx0
    · exact h
  · intro x hx
    rw [latestEnd_eq]
    exact foldl_max_mem_le _ _ x hx
  · intro m hm
    rw [hmapC] at hm
    rcases List.mem_map.mp hm with ⟨k, hk, rfl⟩
    rw [List.mem_range, hcval] at hk
    constructor
    · exact Nat.le_add_right _ _
    · have h1 : interval * (k + 1) ≤ interval * c :=
        Nat.mul_le_mul_left interval (by omega)
      have h2 : interval * (k + 1) = k * interval + interval := by ring
      omega
  · intro m h1 h2 h3
    obtain ⟨k, hk⟩ := Nat.dvd_of_mod_eq_zero h3
    have hklt : k < c := by
      have hlt : interval * k < interval * c := by omega
      exact Nat.lt_of_mul_lt_mul_left hlt
    rw [hmapC]
    refine List.mem_map.mpr ⟨k, List.mem_range.mpr (by omega), ?_⟩
    have hcomm : k * interval = interval * k := by ring
    omega

/-- An event lying between 09:05 and 10:50, for the C6 scenario. -/
def exEventC6 : NEvent :=
  { startTime := "09:05", endTime := "10:50", startMinutes := 545, endMinutes := 650,
    duration := 105, name := "X", location := "TBD", staff := "N/A", group := "All",
    category := "Other", remarks := "", slotIndex := 0 }

/-- A one-day schedule holding only `exEventC6`. -/
def exDataC6 : Schedule := [("Monday", [exEventC6])]

/-- Witness for C6: events only between 09:05 and 10:50 with interval 30
yield a grid spanning 09:00 to 11:00 in 30-minute rows. -/
theorem generateTimeSlotsV2_spec_witness :
    (0 : Nat) < 30 ∧ allEventsOf exDataC6 ≠ [] ∧
      (generateTimeSlotsV2 exDataC6 30).map (·.minutes) = [540, 570, 600, 630] := by
  have h := generateTimeSlotsV2_spec exDataC6 30 (by decide) (by decide) (by decide)
  refine ⟨by decide, by decide, ?_⟩
  rw [h.2.2.1]
  decide

/-- C9: with zero events, the data-driven generator still returns a
deterministic fallback: the concrete empty slot sequence (the min/max folds
keep their initial values `23 * 60 + 59` and `0`, making the rounded window
empty), on every invocation and for every positive interval. -/
theorem generateTimeSlotsV2_no_events (data : Schedule) (interval : Nat)
    (hi : 0 < interval) (hempty : ∀ b ∈ data, b.2 = []) :
    generateTimeSlotsV2 data interval = [] := by
  have hes : latestEnd data = 0 := by
    unfold latestEnd
    induction data with
    | nil => rfl
    | cons b bs ih =>
      rw [List.foldl_cons, hempty b (List.mem_cons_self b bs)]
      exact ih (fun x hx => hempty x (List.mem_cons_of_mem b hx))
  unfold generateTimeSlotsV2
  rw [hes]
  have hzero : (0 + interval - 1) / interval * interval = 0 := by
    rw [Nat.div_eq_of_lt (by omega)]
    omega
  rw [hzero]
  unfold slotsFrom
  rw [Nat.zero_sub]
  rfl

/-- The default weekday set (Monday through Friday). -/
def weekdaysMF : List String :=
  ["Monday", "Tuesday", "Wednesday", "Thursday", "Friday"]

/-- Witness for C9: the freshly initialized empty schedule with the default
interval yields the empty grid. -/
theorem generateTimeSlotsV2_no_events_witness :
    (0 : Nat) < 15 ∧ generateTimeSlotsV2 (initSchedule weekdaysMF) 15 = [] :=
  ⟨by decide, generateTimeSlotsV2_no_events (initSchedule weekdaysMF) 15 (by decide)
    (by decide)⟩

/-- C7: a record whose date resolves to a weekday outside the configured set
contributes nothing: normalizing any record sequence containing it yields the
very same result (same buckets, same errors) as the sequence without it, so
it lands in no day bucket, raises nothing, and leaves every other record's
processing untouched. -/
theorem weekday_outside_set_dropped (weekdays : List String)
    (pre post : List RawRecord) (r : RawRecord)
    (hday : ∀ day, getDayOfWeek r.date = some day → day ∉ weekdays) :
    prepareData weekdays (pre ++ r :: post) = prepareData weekdays (pre ++ post) := by
  unfold prepareData
  have key : ∀ (l : List RawRecord) (acc : Schedule),
      prepareGo weekdays (l ++ r :: post) acc = prepareGo weekdays (l ++ post) acc := by
    intro l
    induction l with
    | nil =>
      intro acc
      simp only [List.nil_append]
      cases hd : getDayOfWeek r.date with
      | none => simp only [prepareGo, hd]
      | some day =>
        simp only [prepareGo, hd]
        rw [if_neg (hday day hd)]
    | cons p ps ih =>
      intro acc
      simp only [List.cons_append]
      cases hd : getDayOfWeek p.date with
      | none =>
        simp only [prepareGo, hd]
        exact ih acc
      | some day =>
        simp only [prepareGo, hd]
        by_cases hmem : day ∈ weekdays
        · rw [if_pos hmem, if_pos hmem]
          cases ht : processTime p.heure with
          | none => rfl
          | some ti => exact ih _
        · rw [if_neg hmem, if_neg hmem]
          exact ih acc
  exact key pre (initSchedule weekdays)

/-- A Saturday record (18 October 2025 is a Saturday) used in the C7
witness. -/
def recSat : RawRecord := { date := "18/10/2025", heure := "10:00-11:00" }

/-- A well-formed Monday record (13 October 2025 is a Monday). -/
def recMon : RawRecord := { date := "13/10/2025", heure := "10:00-11:00" }

/-- Witness for C7: a Saturday record is dropped from a Monday–Friday
configuration without affecting the remaining records. -/
theorem weekday_outside_set_dropped_witness :
    (∀ day, getDayOfWeek recSat.date = some day → day ∉ weekdaysMF) ∧
      prepareData weekdaysMF [recSat, recMon] = prepareData weekdaysMF [recMon] := by
  refine ⟨by decide, ?_⟩
  exact weekday_outside_set_dropped weekdaysMF [] [recMon] recSat (by decide)

/-- The record of the C4 counterexample: its date resolves to Saturday
(outside the default weekday set) and its time string uses the wrong
separator. -/
def recC4 : RawRecord := { date := "18/10/2025", heure := "9h00-10h00" }

/-- Counterexample to C4 as stated: this record's time-range string does not
match the pattern, yet normalization succeeds (the day guard rejects the
record before `processTime` ever runs), silently skipping it exactly like a
bad date — so a malformed time string does not always fail. -/
theorem malformed_time_claim_counterexample :
    processTime recC4.heure = none ∧
      prepareData weekdaysMF [recC4] = Except.ok (initSchedule weekdaysMF) := by
  constructor
  · decide
  · decide

/-- C4 (amended): a record whose date resolves to a weekday in the
configured set and whose time-range string does not match the pattern makes
the whole normalization fail with `MalformedTimeRange` (fail fast: no
schedule is produced, wherever in the input the record sits). -/
theorem malformed_time_fails (weekdays : List String) (rs : List RawRecord)
    (r : RawRecord) (hmem : r ∈ rs)
    (hday : ∃ day, getDayOfWeek r.date = some day ∧ day ∈ weekdays)
    (htime : processTime r.heure = none) :
    prepareData weekdays rs = Except.error PrepError.malformedTimeRange := by
  unfold prepareData
  have key : ∀ (l : List RawRecord), r ∈ l → ∀ acc : Schedule,
      prepareGo weekdays l acc = Except.error PrepError.malformedTimeRange := by
    intro l
    induction l with
    | nil => intro h; simp at h
    | cons p ps ih =>
      intro hmem2 acc
      rcases List.mem_cons.mp hmem2 with rfl | hmem3
      · obtain ⟨day, hd, hdmem⟩ := hday
        simp only [prepareGo, hd]
        rw [if_pos hdmem, htime]
      · cases hd : getDayOfWeek p.date with
        | none =>
          simp only [prepareGo, hd]
          exact ih hmem3 acc
        | some day =>
          simp only [prepareGo, hd]
          by_cases hmemd : day ∈ weekdays
          · rw [if_pos hmemd]
            cases ht : processTime p.heure with
            | none => rfl
            | some ti => exact ih hmem3 _
          · rw [if_neg hmemd]
            exact ih hmem3 acc
  exact key rs hmem (initSchedule weekdays)

/-- A Monday record with a malformed time string (wrong separator). -/
def recC4M : RawRecord := { date := "13/10/2025", heure := "9h00-10h00" }

/-- Witness for the amended C4: the spec's `"9h00-10h00"` scenario on a
weekday inside the configured set aborts the whole construction. -/
theorem malformed_time_fails_witness :
    recC4M ∈ [recC4M] ∧
      (∃ day, getDayOfWeek recC4M.date = some day ∧ day ∈ weekdaysMF) ∧
      processTime recC4M.heure = none ∧
      prepareData weekdaysMF [recC4M] = Except.error PrepError.malformedTimeRange := by
  refine ⟨List.mem_singleton_self _, ⟨"Monday", by decide, by decide⟩, by decide, ?_⟩
  exact malformed_time_fails weekdaysMF [recC4M] recC4M (List.mem_singleton_self _)
    ⟨"Monday", by decide, by decide⟩ (by decide)

/-- The record of the C5 counterexample: subject absent, category present. -/
def recC5 : RawRecord :=
  { date := "13/10/2025", heure := "10:00-11:00", categorie := some "CM" }

/-- Counterexample to C5 as stated: with the subject field absent but the
category field present, the normalized `name` is the category value `"CM"`,
not `"Unspecified"` — the default of `name` does depend on the category
field. -/
theorem name_defaults_counterexample :
    recC5.matiere = none ∧
      (prepareData weekdaysMF [recC5]).map
        (fun s => (s.lookup "Monday").map (fun l => l.map (·.name))) =
        Except.ok (some ["CM"]) ∧
      ("CM" : String) ≠ "Unspecified" := by
  refine ⟨rfl, by decide, by decide⟩

/-- C5 (amended): every optional field is defaulted independently of the
others — location `"TBD"`, staff `"N/A"`, group `"All"`, category `"Other"`,
remarks empty — except `name`, which falls back first to the category field
and only then to `"Unspecified"` (so `name` is `"Unspecified"` exactly when
both subject and category are absent or empty; JavaScript `||` also treats
the empty string as absent). -/
theorem field_defaults_spec (m sa p g c re : Option String) :
    ∃ e : NEvent,
      prepareData weekdaysMF
        [{ date := "13/10/2025", heure := "10:00-11:00", matiere := m, salle := sa,
           personnel := p, groupe := g, categorie := c, remarques := re }] =
        Except.ok (pushEvent (initSchedule weekdaysMF) "Monday" e) ∧
      e.name = jsOr m (jsOr c "Unspecified") ∧
      e.location = jsOr sa "TBD" ∧
      e.staff = jsOr p "N/A" ∧
      e.group = jsOr g "All" ∧
      e.category = jsOr c "Other" ∧
      e.remarks = jsOr re "" := by
  refine ⟨mkEvent ((processTime "10:00-11:00").getD ⟨"", "", 0, 0, 0⟩)
    { date := "13/10/2025", heure := "10:00-11:00", matiere := m, salle := sa,
      personnel := p, groupe := g, categorie := c, remarques := re },
    ?_, rfl, rfl, rfl, rfl, rfl, rfl⟩
  rfl

/-- C8: the per-day sort orders events ascending by `startMinutes`, permutes
the day's list, and is stable: for every start time `m`, the subsequence of
events starting at `m` is unchanged — ties keep their input order. -/
theorem sortDay_sorted_stable (l : List NEvent) :
    List.Pairwise (fun a b => a.startMinutes ≤ b.startMinutes) (sortDay l) ∧
    List.Perm (sortDay l) l ∧
    ∀ m : Nat, (sortDay l).filter (fun e => e.startMinutes == m) =
      l.filter (fun e => e.startMinutes == m) := by
  unfold sortDay
  have htrans : ∀ (a b c : NEvent),
      decide (a.startMinutes ≤ b.startMinutes) = true →
      decide (b.startMinutes ≤ c.startMinutes) = true →
      decide (a.startMinutes ≤ c.startMinutes) = true := by
    intro a b c hab hbc
    simp only [decide_eq_true_eq] at hab hbc ⊢
    omega
  have htotal : ∀ (a b : NEvent),
      (decide (a.startMinutes ≤ b.startMinutes) ||
        decide (b.startMinutes ≤ a.startMinutes)) = true := by
    intro a b
    simp only [Bool.or_eq_true, decide_eq_true_eq]
    omega
  refine ⟨?_, List.mergeSort_perm l _, ?_⟩
  · have h := List.sorted_mergeSort htrans htotal l
    exact h.imp (by intro a b hab; exact decide_eq_true_eq.mp hab)
  · intro m
    have hfs : List.Sublist (l.filter (fun e => e.startMinutes == m)) l :=
      List.filter_sublist l
    have hpw : (l.filter (fun e => e.startMinutes == m)).Pairwise
        (fun a b => decide (a.startMinutes ≤ b.startMinutes) = true) := by
      apply List.pairwise_of_forall_mem_list
      intro a ha b hb
      have ha2 := (List.mem_filter.mp ha).2
      have hb2 := (List.mem_filter.mp hb).2
      simp only [beq_iff_eq] at ha2 hb2
      simp only [decide_eq_true_eq]
      omega
    have h1 : List.Sublist (l.filter (fun e => e.startMinutes == m))
        (l.mergeSort (fun a b => a.startMinutes ≤ b.startMinutes)) :=
      List.sublist_mergeSort htrans htotal hpw hfs
    have hself : (l.filter (fun e => e.startMinutes == m)).filter
        (fun e => e.startMinutes == m) = l.filter (fun e => e.startMinutes == m) :=
      List.filter_eq_self.mpr (fun a ha => (List.mem_filter.mp ha).2)
    have h2 : List.Sublist (l.filter (fun e => e.startMinutes == m))
        ((l.mergeSort (fun a b => a.startMinutes ≤ b.startMinutes)).filter
          (fun e => e.startMinutes == m)) := by
      rw [← hself]
      exact h1.filter _
    have h3 := ((List.mergeSort_perm l
      (fun a b => a.startMinutes ≤ b.startMinutes)).filter
        (fun e => e.startMinutes == m)).length_eq
    exact (h2.eq_of_length h3.symm).symm

/-- A 09:00–10:00 event (row span 4 at interval 15), for the C10 scenario. -/
def evA : NEvent :=
  { startTime := "09:00", endTime := "10:00", startMinutes := 540, endMinutes := 600,
    duration := 60, name := "Algebra", location := "TBD", staff := "N/A", group := "All",
    category := "Other", remarks := "", slotIndex := 0 }

/-- A 09:30–10:00 event starting inside `evA`'s span, for the C10
scenario. -/
def evB : NEvent :=
  { startTime := "09:30", endTime := "10:00", startMinutes := 570, endMinutes := 600,
    duration := 30, name := "Biology", location := "TBD", staff := "N/A", group := "All",
    category := "Other", remarks := "", slotIndex := 0 }

/-- C10: a schedule exists in which an event is silently omitted from the
layout: at interval 15 on version 1's grid, `evA` (09:00, span 4, row 4)
marks rows 5–7 occupied; `evB` starts at row 6, which the occupied check
skips before the starting-events lookup, so no cell is ever emitted for
`evB` while `evA` is rendered normally. -/
theorem hidden_event_not_rendered :
    getTimeSlotIndex (generateTimeSlotsV1 15) 15 evB.startMinutes = 6 ∧
    (renderDayV1 15 (generateTimeSlotsV1 15) [evA, evB]).1 6 = true ∧
    ((renderDayV1 15 (generateTimeSlotsV1 15) [evA, evB]).2.all
      (fun c => match c with
        | Cell.event _ e => !(e.name == "Biology")
        | Cell.empty _ => true)) = true ∧
    ((renderDayV1 15 (generateTimeSlotsV1 15) [evA, evB]).2.any
      (fun c => match c with
        | Cell.event _ e => e.name == "Algebra"
        | Cell.empty _ => false)) = true := by
  have hsort : sortDay [evA, evB] = [evA, evB] := by
    unfold sortDay
    apply List.mergeSort_of_sorted
    decide
  have hrd : renderDayV1 15 (generateTimeSlotsV1 15) [evA, evB] =
      renderDay (fun e => (getRowSpanV1 e.duration 15).toNat) (fun e k => e.slotIndex == k)
        (([evA, evB]).map (fun e =>
          { e with slotIndex := getTimeSlotIndex (generateTimeSlotsV1 15) 15 e.startMinutes }))
        (generateTimeSlotsV1 15).length := by
    unfold renderDayV1
    rw [hsort]
  refine ⟨by decide, ?_, ?_, ?_⟩ <;> rw [hrd] <;> decide

end Timetable
